import Mathlib

/-!
Verification of the PawPal scheduling engine (src/pawpal_system.py).

The Python source is shallowly embedded: every class method becomes a pure
Lean function.  Mutation is made explicit (methods that mutate return the
updated value), the global `date.today()` becomes an explicit `today`
parameter, Python `float` minutes become exact rationals, and Python's
stable `sorted` becomes `List.insertionSort` over the pulled-back key
preorder (stable sorting by a total preorder has a unique result, so any
stable algorithm is an admissible model).  Python object graphs are
modelled alias-free: each position of a Lean list stands for a distinct
Python object, so the `id(pet)`-keyed schedule dict becomes an ordered
association list with one entry per pet position.
-/

namespace PawPal

open List

/-- Task frequency options (`class Frequency(Enum)`). -/
inductive Frequency where
  | DAILY
  | WEEKLY
  | MONTHLY
  | AS_NEEDED
deriving DecidableEq

/-- A calendar date, as Python's `datetime.date` (year, month, day). -/
structure Date where
  year : Int
  month : Int
  day : Int
deriving DecidableEq

/-- Days since 1970-01-01 (proleptic Gregorian, the count underlying Python's
date subtraction), computed by the standard civil-calendar formula with
floor division. -/
def Date.toEpochDays (dt : Date) : Int :=
  let y := if dt.month ≤ 2 then dt.year - 1 else dt.year
  let era := Int.fdiv y 400
  let yoe := y - era * 400
  let mp := Int.fmod (dt.month + 9) 12
  let doy := Int.fdiv (153 * mp + 2) 5 + dt.day - 1
  let doe := yoe * 365 + Int.fdiv yoe 4 - Int.fdiv yoe 100 + doy
  era * 146097 + doe - 719468

/-- Inverse of `Date.toEpochDays` (the standard civil-from-days formula). -/
def Date.ofEpochDays (z0 : Int) : Date :=
  let z := z0 + 719468
  let era := Int.fdiv z 146097
  let doe := z - era * 146097
  let yoe := Int.fdiv (doe - Int.fdiv doe 1460 + Int.fdiv doe 36524 - Int.fdiv doe 146096) 365
  let y := yoe + era * 400
  let doy := doe - (365 * yoe + Int.fdiv yoe 4 - Int.fdiv yoe 100)
  let mp := Int.fdiv (5 * doy + 2) 153
  let d := doy - Int.fdiv (153 * mp + 2) 5 + 1
  let m := mp + (if mp < 10 then 3 else -9)
  { year := if m ≤ 2 then y + 1 else y, month := m, day := d }

/-- Python `(a - b).days` for dates. -/
def Date.subDays (a b : Date) : Int :=
  a.toEpochDays - b.toEpochDays

/-- Python `a + timedelta(days=n)` for dates. -/
def Date.addDays (a : Date) (n : Int) : Date :=
  Date.ofEpochDays (a.toEpochDays + n)

/-- Embeds `@dataclass class Task` of src/pawpal_system.py.  `duration` is minutes
(Python float, modelled as an exact rational); `last_completed` and `time`
are optional. -/
structure Task where
  name : String
  duration : Rat
  priority : Int
  taskType : String
  frequency : Frequency := Frequency.DAILY
  completed : Bool := false
  last_completed : Option Date := none
  time : Option String := none
deriving DecidableEq

/-- Embeds `Task.isDueToday`, with the implicit `date.today()` made an explicit
parameter.  In Python `None != today` is `True`, hence the bare
disequality in the DAILY case compares at `Option Date`. -/
def Task.isDueToday (t : Task) (today : Date) : Bool :=
  match t.frequency with
  | Frequency.DAILY => t.last_completed != some today
  | Frequency.WEEKLY =>
    match t.last_completed with
    | none => true
    | some d => decide (7 ≤ Date.subDays today d)
  | Frequency.MONTHLY =>
    match t.last_completed with
    | none => true
    | some d => today.month != d.month
  | Frequency.AS_NEEDED => true

/-- Embeds `Task._create_next_instance`: copies every field except `completed`
(reset to false) and `last_completed` (reset to unset).  The
`next_due_date` argument is accepted and ignored, exactly as in the
source. -/
def Task.create_next_instance (t : Task) (_next_due_date : Date) : Task :=
  { name := t.name
    duration := t.duration
    priority := t.priority
    taskType := t.taskType
    frequency := t.frequency
    completed := false
    last_completed := none
    time := t.time }

/-- Embeds `Task.mark_complete`: the receiver is mutated (completed := true,
last_completed := today); returned as the first component, with the
optional successor (DAILY/WEEKLY only) as the second. -/
def Task.mark_complete (t : Task) (today : Date) : Task × Option Task :=
  let t2 : Task := { t with completed := true, last_completed := some today }
  match t.frequency with
  | Frequency.DAILY => (t2, some (t2.create_next_instance (today.addDays 1)))
  | Frequency.WEEKLY => (t2, some (t2.create_next_instance (today.addDays 7)))
  | _ => (t2, none)

/-- Embeds `@dataclass class Pet`. -/
structure Pet where
  name : String
  species : String
  tasks : List Task := []
deriving DecidableEq

/-- Embeds `Pet.addTask`: append. -/
def Pet.addTask (p : Pet) (t : Task) : Pet :=
  { p with tasks := p.tasks ++ [t] }

/-- Embeds `Pet.getTasks`. -/
def Pet.getTasks (p : Pet) : List Task :=
  p.tasks

/-- Embeds `Pet.getTasksByType`. -/
def Pet.getTasksByType (p : Pet) (taskType : String) : List Task :=
  p.tasks.filter (fun task => task.taskType == taskType)

/-- Embeds `Pet.getTasksDueToday`. -/
def Pet.getTasksDueToday (p : Pet) (today : Date) : List Task :=
  p.tasks.filter (fun task => task.isDueToday today)

/-- Embeds `Pet.complete_task`: marks the task complete and appends the successor
when one is produced.  Returns (successor, updated pet); a successor `Task`
object is always truthy in Python, so `if next_task:` is `isSome`. -/
def Pet.complete_task (p : Pet) (t : Task) (today : Date) : Option Task × Pet :=
  let next_task := (t.mark_complete today).2
  match next_task with
  | some nt => (some nt, p.addTask nt)
  | none => (none, p)

/-- Embeds `class Owner`. -/
structure Owner where
  name : String
  dailyTimeAval : Rat
  pets : List Pet := []
deriving DecidableEq

/-- The loop body of `Owner.getTasksDueToday`: walk pets in order, keep
`(pet, due_tasks)` exactly when `due_tasks` is nonempty (Python truthiness
of a list). -/
def tasksDueByPet (today : Date) : List Pet → List (Pet × List Task)
  | [] => []
  | pet :: rest =>
    let due_tasks := pet.getTasksDueToday today
    if due_tasks.isEmpty then tasksDueByPet today rest
    else (pet, due_tasks) :: tasksDueByPet today rest

/-- Embeds `Owner.getTasksDueToday`. -/
def Owner.getTasksDueToday (o : Owner) (today : Date) : List (Pet × List Task) :=
  tasksDueByPet today o.pets

/-- Embeds `Owner.getAllTasks`. -/
def Owner.getAllTasks (o : Owner) : List Task :=
  o.pets.foldl (fun acc pet => acc ++ pet.getTasks) []

/-! ### Scheduler.prioritizeTasks -/

/-- The sort preorder of `prioritizeTasks`: Python's
`key=lambda t: (-t.priority, t.duration)` compares key tuples
lexicographically. -/
def priorityLe (a b : Task) : Prop :=
  -a.priority < -b.priority ∨ (-a.priority = -b.priority ∧ a.duration ≤ b.duration)

instance (a b : Task) : Decidable (priorityLe a b) := by
  unfold priorityLe
  exact inferInstance

instance : IsTotal Task priorityLe := by
  constructor
  intro a b
  rcases lt_trichotomy (-a.priority) (-b.priority) with h | h | h
  · exact Or.inl (Or.inl h)
  · rcases le_total a.duration b.duration with hd | hd
    · exact Or.inl (Or.inr ⟨h, hd⟩)
    · exact Or.inr (Or.inr ⟨h.symm, hd⟩)
  · exact Or.inr (Or.inl h)

instance : IsTrans Task priorityLe := by
  constructor
  intro a b c hab hbc
  rcases hab with h1 | ⟨h1, d1⟩
  · rcases hbc with h2 | ⟨h2, _⟩
    · exact Or.inl (h1.trans h2)
    · exact Or.inl (h2 ▸ h1)
  · rcases hbc with h2 | ⟨h2, d2⟩
    · exact Or.inl (h1 ▸ h2)
    · exact Or.inr ⟨h1.trans h2, d1.trans d2⟩

/-- The greedy selection loop of `prioritizeTasks`: walk the (already
sorted) list with a running `total_duration`, keep a task iff
`total_duration + task.duration ≤ dailyTimeAval`, and add its duration on
inclusion. -/
def selectWithin (dailyTimeAval : Rat) : Rat → List Task → List Task
  | _, [] => []
  | total_duration, task :: rest =>
    if total_duration + task.duration ≤ dailyTimeAval then
      task :: selectWithin dailyTimeAval (total_duration + task.duration) rest
    else
      selectWithin dailyTimeAval total_duration rest

/-- Embeds `Scheduler.prioritizeTasks`: stable sort by (priority descending,
duration ascending), then the greedy budget walk.  The scheduler only
reads `self.owner.dailyTimeAval`, passed here explicitly. -/
def prioritizeTasks (dailyTimeAval : Rat) (tasks : List Task) : List Task :=
  let sorted_tasks := tasks.insertionSort priorityLe
  selectWithin dailyTimeAval 0 sorted_tasks

/-- Summed duration of a list of tasks (the final `total_duration` of the
greedy loop over its selection). -/
def sumDurations (tasks : List Task) : Rat :=
  (tasks.map Task.duration).sum

/-! ### Scheduler.sortByTime -/

/-- Split a character list at each `':'` (Python `time_str.split(':')`). -/
def splitOnColon : List Char → List (List Char)
  | [] => [[]]
  | c :: rest =>
    match splitOnColon rest with
    | [] => [[]]
    | g :: gs => if c = ':' then [] :: g :: gs else (c :: g) :: gs

/-- Value of a nonempty all-digit character list; `none` otherwise. -/
def digitsVal (cs : List Char) : Option Nat :=
  if cs.isEmpty || !cs.all Char.isDigit then none
  else some (cs.foldl (fun acc c => acc * 10 + (c.toNat - 48)) 0)

/-- Python `int(s)` on the character list of `s`: an optional sign followed
by digits (whitespace/underscore tolerance of CPython is out of scope for
the strings this program meets); `none` models `ValueError`. -/
def parseIntChars : List Char → Option Int
  | '-' :: rest => (digitsVal rest).map (fun n => -(n : Int))
  | '+' :: rest => (digitsVal rest).map (fun n => (n : Int))
  | cs => (digitsVal cs).map (fun n => (n : Int))

/-- Embeds `Scheduler.sortByTime.parse_time`: there `None` and `""` are falsy and map to
the sentinel `float('inf')` (here `⊤`); otherwise the string must split on
`':'` into exactly two integer parts `hours, minutes` (else the
`ValueError`/`AttributeError` handler yields the sentinel), giving
`hours * 60 + minutes`. -/
def parse_time (time_str : Option String) : WithTop Int :=
  match time_str with
  | none => ⊤
  | some s =>
    if s = "" then ⊤
    else
      match splitOnColon s.data with
      | [h, m] =>
        match parseIntChars h, parseIntChars m with
        | some hours, some minutes => ((hours * 60 + minutes : Int) : WithTop Int)
        | _, _ => ⊤
      | _ => ⊤

/-- The sort preorder of `sortByTime`: compare parsed keys. -/
def timeLe (a b : Task) : Prop :=
  parse_time a.time ≤ parse_time b.time

instance (a b : Task) : Decidable (timeLe a b) := by
  unfold timeLe
  exact inferInstance

instance : IsTotal Task timeLe :=
  ⟨fun a b => le_total (parse_time a.time) (parse_time b.time)⟩

instance : IsTrans Task timeLe :=
  ⟨fun _ _ _ hab hbc => le_trans hab hbc⟩

/-- Embeds `Scheduler.sortByTime`: stable sort by `parse_time` of the scheduled
time. -/
def sortByTime (tasks : List Task) : List Task :=
  tasks.insertionSort timeLe

/-! ### Scheduler.detectScheduleConflicts -/

/-- One dict update `time_map[time].append(entry)` (creating the key at the
end on first sight), on an insertion-ordered association list — Python
dicts preserve key insertion order. -/
def addEntry : List (String × List (String × String)) → String → String × String →
    List (String × List (String × String))
  | [], time, entry => [(time, [entry])]
  | (t, es) :: rest, time, entry =>
    if t = time then (t, es ++ [entry]) :: rest
    else (t, es) :: addEntry rest time entry

/-- Record one task in the time map: only tasks with a truthy `time`
(set and nonempty) are considered. -/
def recordTask (m : List (String × List (String × String))) (petName : String)
    (task : Task) : List (String × List (String × String)) :=
  match task.time with
  | some ts => if ts = "" then m else addEntry m ts (petName, task.name)
  | none => m

/-- The time-map building loop of `detectScheduleConflicts`, over the
cached schedule (one `(pet, selected tasks)` entry per pet). -/
def buildTimeMap (schedule : List (Pet × List Task)) :
    List (String × List (String × String)) :=
  schedule.foldl (fun m pt => pt.2.foldl (fun m2 task => recordTask m2 pt.1.name task) m) []

/-- Python `", ".join(l)`. -/
def joinComma : List String → String
  | [] => ""
  | [s] => s
  | s :: rest => s ++ ", " ++ joinComma rest

/-- The warning string built for one conflicting time:
the f-string interpolating the time and the comma-joined
`taskName (petName)` details. -/
def mkWarning (time : String) (entries : List (String × String)) : String :=
  "⚠️  Conflict at " ++ time ++ ": " ++
    joinComma (entries.map (fun e => e.2 ++ " (" ++ e.1 ++ ")"))

/-- Embeds `Scheduler.detectScheduleConflicts`: one warning per time-map key with
more than one entry, in map order. -/
def detectScheduleConflicts (schedule : List (Pet × List Task)) : List String :=
  ((buildTimeMap schedule).filter (fun p => decide (1 < p.2.length))).map
    (fun p => mkWarning p.1 p.2)

/-! ### Scheduler.genDailyPlan -/

/-- The state `genDailyPlan` leaves behind: its return value
(`schedule_list`, the pre-prioritization pairs), the rebuilt
`self.schedule` (insertion-ordered; each entry stands for one
`id(pet)`-keyed dict slot), and the cached `self.conflicts`. -/
structure PlanResult where
  returned : List (Pet × List Task)
  schedule : List (Pet × List Task)
  conflicts : List String
deriving DecidableEq

/-- Embeds `Scheduler.genDailyPlan`. -/
def genDailyPlan (owner : Owner) (today : Date) : PlanResult :=
  let schedule_list := owner.getTasksDueToday today
  let schedule := schedule_list.map (fun pt => (pt.1, prioritizeTasks owner.dailyTimeAval pt.2))
  { returned := schedule_list
    schedule := schedule
    conflicts := detectScheduleConflicts schedule }

/-! ### Auxiliary definitions used to state and prove the claims -/

/-- The spec's due-date policy table (section 4.1), stated from the spec's
words, to be compared with the source's `Task.isDueToday`. -/
def dueSpecTable (freq : Frequency) (lastCompleted : Option Date) (today : Date) : Bool :=
  match freq with
  | Frequency.DAILY =>
    match lastCompleted with
    | none => true
    | some d => d != today
  | Frequency.WEEKLY =>
    match lastCompleted with
    | none => true
    | some d => decide (7 ≤ Date.subDays today d)
  | Frequency.MONTHLY =>
    match lastCompleted with
    | none => true
    | some d => today.month != d.month
  | Frequency.AS_NEEDED => true

/-- Association-list lookup in an insertion-ordered time map. -/
def lookupTime : List (String × List (String × String)) → String → Option (List (String × String))
  | [], _ => none
  | (t, es) :: rest, time => if t = time then some es else lookupTime rest time

/-- Keys of a time map, in order. -/
def keysOf (m : List (String × List (String × String))) : List String :=
  m.map Prod.fst

/-- The `(time, petName, taskName)` triple a task contributes to the time
map, if any: only tasks with a set, nonempty time contribute. -/
def entryOf (petName : String) (task : Task) : Option (String × String × String) :=
  match task.time with
  | some ts => if ts = "" then none else some (ts, petName, task.name)
  | none => none

/-- The flattened `(time, petName, taskName)` stream that
`detectScheduleConflicts` feeds into its time map, in traversal order:
only tasks of the cached schedule whose time is set and nonempty. -/
def planEntries (schedule : List (Pet × List Task)) : List (String × String × String) :=
  schedule.flatMap (fun pt => pt.2.filterMap (entryOf pt.1.name))

/-- One fold step of grouping the flattened stream into the time map. -/
def groupAcc (m : List (String × List (String × String))) (e : String × String × String) :
    List (String × List (String × String)) :=
  addEntry m e.1 (e.2.1, e.2.2)

/-- All `(petName, taskName)` pairs of the stream at a given time, in
order. -/
def entriesFor (es : List (String × String × String)) (time : String) :
    List (String × String) :=
  (es.filter (fun e => e.1 == time)).map (fun e => (e.2.1, e.2.2))

/-- Holds when `s` occurs as a contiguous substring of `w`. -/
def occursIn (w s : String) : Prop :=
  ∃ x y : List Char, w.data = x ++ s.data ++ y

/-- A task whose time is set and nonempty (truthy in Python). -/
def hasTruthyTime (t : Task) : Bool :=
  match t.time with
  | some s => s != ""
  | none => false

/-! ### Lemmas about the greedy selection -/

lemma sumDurations_nil : sumDurations [] = 0 := rfl

lemma sumDurations_cons (t : Task) (ts : List Task) :
    sumDurations (t :: ts) = t.duration + sumDurations ts := by
  simp [sumDurations]

lemma selectWithin_sublist (b : Rat) : ∀ (ts : List Task) (total : Rat),
    selectWithin b total ts <+ ts
  | [], _ => List.Sublist.refl []
  | task :: rest, total => by
    rw [selectWithin]
    split
    · exact (selectWithin_sublist b rest _).cons₂ task
    · exact (selectWithin_sublist b rest total).cons task

lemma selectWithin_total_le {b : Rat} : ∀ (ts : List Task) (total : Rat),
    total ≤ b → total + sumDurations (selectWithin b total ts) ≤ b
  | [], total, h => by simpa [selectWithin, sumDurations_nil] using h
  | task :: rest, total, h => by
    rw [selectWithin]
    split
    · have ih := selectWithin_total_le rest (total + task.duration) (by assumption)
      rw [sumDurations_cons]
      linarith [ih]
    · exact selectWithin_total_le rest total h

lemma selectWithin_ne_nil_sum_le {b : Rat} : ∀ (ts : List Task) (total : Rat),
    selectWithin b total ts ≠ [] → total + sumDurations (selectWithin b total ts) ≤ b
  | [], _, h => absurd rfl h
  | task :: rest, total, h => by
    rw [selectWithin] at h ⊢
    split at h
    · have ih := selectWithin_total_le rest (total + task.duration) (by assumption)
      rw [if_pos (by assumption), sumDurations_cons]
      linarith [ih]
    · rw [if_neg (by assumption)]
      exact selectWithin_ne_nil_sum_le rest total h

lemma selectWithin_neg_empty {b : Rat} (hb : b < 0) : ∀ (ts : List Task) (total : Rat),
    0 ≤ total → (∀ t ∈ ts, 0 ≤ t.duration) → selectWithin b total ts = []
  | [], _, _, _ => rfl
  | task :: rest, total, htot, hdur => by
    have hd : 0 ≤ task.duration := hdur task (List.mem_cons_self task rest)
    rw [selectWithin, if_neg (by linarith)]
    exact selectWithin_neg_empty hb rest total htot
      (fun t ht => hdur t (List.mem_cons_of_mem task ht))

lemma selectWithin_zero_dur {b : Rat} (hb : b ≤ 0) : ∀ (ts : List Task) (total : Rat),
    0 ≤ total → (∀ t ∈ ts, 0 ≤ t.duration) →
    ∀ t ∈ selectWithin b total ts, t.duration = 0
  | [], _, _, _ => by intro t ht; simp [selectWithin] at ht
  | task :: rest, total, htot, hdur => by
    have hd : 0 ≤ task.duration := hdur task (List.mem_cons_self task rest)
    have hrest : ∀ t ∈ rest, 0 ≤ t.duration :=
      fun t ht => hdur t (List.mem_cons_of_mem task ht)
    rw [selectWithin]
    split
    · intro t ht
      rcases List.mem_cons.mp ht with h | h
      · subst h
        linarith [‹total + t.duration ≤ b›]
      · exact selectWithin_zero_dur hb rest (total + task.duration) (by linarith) hrest t h
    · exact selectWithin_zero_dur hb rest total htot hrest

lemma priorityLe_iff (a b : Task) :
    priorityLe a b ↔
      (b.priority < a.priority ∨ (a.priority = b.priority ∧ a.duration ≤ b.duration)) := by
  unfold priorityLe
  constructor
  · rintro (h | ⟨h, hd⟩)
    · exact Or.inl (by omega)
    · exact Or.inr ⟨by omega, hd⟩
  · rintro (h | ⟨h, hd⟩)
    · exact Or.inl (by omega)
    · exact Or.inr ⟨by omega, hd⟩

/-! ### Lemmas about the due-today aggregation and the daily plan -/

lemma tasksDueByPet_eq_filter (today : Date) : ∀ pets : List Pet,
    tasksDueByPet today pets =
      (pets.map (fun p => (p, p.getTasksDueToday today))).filter
        (fun pd => !pd.2.isEmpty)
  | [] => rfl
  | pet :: rest => by
    cases h : (pet.getTasksDueToday today).isEmpty <;>
      simp [tasksDueByPet, h, tasksDueByPet_eq_filter today rest]

lemma mem_tasksDueByPet {today : Date} {pets : List Pet} {p : Pet} {ds : List Task}
    (h : (p, ds) ∈ tasksDueByPet today pets) :
    p ∈ pets ∧ ds = p.getTasksDueToday today ∧ ds ≠ [] := by
  rw [tasksDueByPet_eq_filter] at h
  rcases List.mem_filter.mp h with ⟨hmem, hne⟩
  rcases List.mem_map.mp hmem with ⟨q, hq, heq⟩
  cases heq
  refine ⟨hq, rfl, ?_⟩
  simpa [List.isEmpty_iff] using hne

lemma genDailyPlan_returned (o : Owner) (today : Date) :
    (genDailyPlan o today).returned = o.getTasksDueToday today := rfl

lemma genDailyPlan_schedule (o : Owner) (today : Date) :
    (genDailyPlan o today).schedule =
      (o.getTasksDueToday today).map
        (fun pt => (pt.1, prioritizeTasks o.dailyTimeAval pt.2)) := rfl

lemma genDailyPlan_conflicts (o : Owner) (today : Date) :
    (genDailyPlan o today).conflicts =
      detectScheduleConflicts (genDailyPlan o today).schedule := rfl

lemma mem_genDailyPlan_schedule {o : Owner} {today : Date} {p : Pet} {s : List Task}
    (h : (p, s) ∈ (genDailyPlan o today).schedule) :
    p ∈ o.pets ∧ s = prioritizeTasks o.dailyTimeAval (p.getTasksDueToday today) := by
  rw [genDailyPlan_schedule] at h
  rcases List.mem_map.mp h with ⟨⟨q, ds⟩, hq, heq⟩
  cases heq
  rcases mem_tasksDueByPet hq with ⟨hp, hds, _⟩
  exact ⟨hp, by rw [hds]⟩

/-! ### Lemmas about the conflict time map -/

lemma lookupTime_addEntry (e : String × String) :
    ∀ (m : List (String × List (String × String))) (time t2 : String),
    lookupTime (addEntry m time e) t2 =
      if time = t2 then some (((lookupTime m t2).getD []) ++ [e])
      else lookupTime m t2
  | [], time, t2 => by
    by_cases h : time = t2 <;> simp [addEntry, lookupTime, h]
  | (t, es) :: rest, time, t2 => by
    by_cases ht : t = time
    · subst ht
      rw [addEntry, if_pos rfl]
      by_cases h2 : t = t2
      · subst h2
        simp [lookupTime]
      · simp [lookupTime, h2]
    · rw [addEntry, if_neg ht]
      by_cases h2 : t = t2
      · subst h2
        have hne : time ≠ t := fun hh => ht hh.symm
        simp [lookupTime, hne]
      · simp only [lookupTime, if_neg h2]
        exact lookupTime_addEntry e rest time t2

lemma lookupTime_eq_none_iff :
    ∀ (m : List (String × List (String × String))) (t : String),
    lookupTime m t = none ↔ t ∉ keysOf m
  | [], t => by simp [lookupTime, keysOf]
  | (t1, es) :: rest, t => by
    by_cases h : t1 = t
    · subst h
      simp [lookupTime, keysOf]
    · have h2 : ¬(t = t1) := fun hh => h hh.symm
      rw [lookupTime, if_neg h, lookupTime_eq_none_iff rest t]
      show t ∉ keysOf rest ↔ t ∉ keysOf ((t1, es) :: rest)
      have hk : keysOf ((t1, es) :: rest) = t1 :: keysOf rest := rfl
      rw [hk]
      simp [List.mem_cons, h2]

lemma keysOf_addEntry (e : String × String) :
    ∀ (m : List (String × List (String × String))) (time : String),
    keysOf (addEntry m time e) =
      if time ∈ keysOf m then keysOf m else keysOf m ++ [time]
  | [], time => by simp [addEntry, keysOf]
  | (t, es) :: rest, time => by
    by_cases ht : t = time
    · subst ht
      simp [addEntry, keysOf]
    · have hne : ¬(time = t) := fun hh => ht hh.symm
      rw [addEntry, if_neg ht]
      have hrec := keysOf_addEntry e rest time
      simp only [keysOf, List.map_cons] at hrec ⊢
      rw [hrec]
      simp only [List.mem_cons, hne, false_or]
      by_cases hmem : time ∈ rest.map Prod.fst
      · simp [hmem]
      · simp [hmem]

lemma nodup_keysOf_addEntry {m : List (String × List (String × String))}
    (h : (keysOf m).Nodup) (time : String) (e : String × String) :
    (keysOf (addEntry m time e)).Nodup := by
  rw [keysOf_addEntry]
  by_cases hmem : time ∈ keysOf m
  · simpa [hmem] using h
  · simp only [hmem, if_neg, ite_false]
    simpa [List.nodup_append] using ⟨h, hmem⟩

lemma lookupTime_of_mem :
    ∀ {m : List (String × List (String × String))} {t : String} {es : List (String × String)},
    (keysOf m).Nodup → (t, es) ∈ m → lookupTime m t = some es := by
  intro m
  induction m with
  | nil => intro t es _ h; simp at h
  | cons hd tl ih =>
    intro t es hnd hmem
    obtain ⟨t1, es1⟩ := hd
    rcases List.mem_cons.mp hmem with heq | htl
    · cases heq
      simp [lookupTime]
    · have hnd2 : t1 ∉ keysOf tl ∧ (keysOf tl).Nodup := by
        have hk : keysOf ((t1, es1) :: tl) = t1 :: keysOf tl := rfl
        rw [hk, List.nodup_cons] at hnd
        exact hnd
      have ht1 : t1 ≠ t := by
        intro hh
        subst hh
        exact hnd2.1 (by simpa [keysOf] using List.mem_map_of_mem Prod.fst htl)
      rw [lookupTime, if_neg ht1]
      exact ih hnd2.2 htl

lemma mem_of_lookupTime :
    ∀ {m : List (String × List (String × String))} {t : String} {es : List (String × String)},
    lookupTime m t = some es → (t, es) ∈ m := by
  intro m
  induction m with
  | nil => intro t es h; simp [lookupTime] at h
  | cons hd tl ih =>
    intro t es h
    obtain ⟨t1, es1⟩ := hd
    by_cases ht : t1 = t
    · subst ht
      rw [lookupTime, if_pos rfl] at h
      cases h
      exact List.mem_cons_self _ _
    · rw [lookupTime, if_neg ht] at h
      exact List.mem_cons_of_mem _ (ih h)

lemma foldl_groupAcc_lookup :
    ∀ (es : List (String × String × String)) (m : List (String × List (String × String)))
      (t : String),
    (lookupTime (es.foldl groupAcc m) t).getD [] =
      (lookupTime m t).getD [] ++ entriesFor es t
  | [], m, t => by simp [entriesFor]
  | e :: es, m, t => by
    rw [List.foldl_cons]
    rw [foldl_groupAcc_lookup es (groupAcc m e) t]
    unfold groupAcc
    rw [lookupTime_addEntry]
    by_cases h : e.1 = t
    · rw [if_pos h]
      simp only [Option.getD_some]
      rw [show entriesFor (e :: es) t = (e.2.1, e.2.2) :: entriesFor es t by
        simp [entriesFor, List.filter_cons, h]]
      simp [List.append_assoc]
    · rw [if_neg h]
      rw [show entriesFor (e :: es) t = entriesFor es t by
        simp [entriesFor, List.filter_cons, h]]

lemma foldl_groupAcc_none_iff :
    ∀ (es : List (String × String × String)) (m : List (String × List (String × String)))
      (t : String),
    lookupTime (es.foldl groupAcc m) t = none ↔
      (lookupTime m t = none ∧ entriesFor es t = [])
  | [], m, t => by simp [entriesFor]
  | e :: es, m, t => by
    rw [List.foldl_cons]
    rw [foldl_groupAcc_none_iff es (groupAcc m e) t]
    unfold groupAcc
    rw [lookupTime_addEntry]
    by_cases h : e.1 = t
    · rw [if_pos h]
      rw [show entriesFor (e :: es) t = (e.2.1, e.2.2) :: entriesFor es t by
        simp [entriesFor, List.filter_cons, h]]
      simp
    · rw [if_neg h]
      rw [show entriesFor (e :: es) t = entriesFor es t by
        simp [entriesFor, List.filter_cons, h]]

lemma nodup_keysOf_foldl_groupAcc :
    ∀ (es : List (String × String × String)) (m : List (String × List (String × String))),
    (keysOf m).Nodup → (keysOf (es.foldl groupAcc m)).Nodup
  | [], m, h => h
  | e :: es, m, h => by
    rw [List.foldl_cons]
    exact nodup_keysOf_foldl_groupAcc es (groupAcc m e) (nodup_keysOf_addEntry h e.1 _)

lemma entryOf_eq_some {pn : String} {task : Task} {e : String × String × String} :
    entryOf pn task = some e ↔
      task.time = some e.1 ∧ e.1 ≠ "" ∧ e.2 = (pn, task.name) := by
  obtain ⟨e1, e2, e3⟩ := e
  rcases htime : task.time with _ | ts
  · simp [entryOf, htime]
  · by_cases hts : ts = ""
    · subst hts
      simp only [entryOf, htime, if_pos rfl]
      constructor
      · intro h; cases h
      · rintro ⟨h1, h2, _⟩
        cases h1
        exact absurd rfl h2
    · simp only [entryOf, htime, if_neg hts]
      constructor
      · intro h
        cases h
        exact ⟨rfl, hts, rfl⟩
      · rintro ⟨h1, _, h3⟩
        cases h1
        cases h3
        rfl

lemma recordTask_eq_entryOf (m : List (String × List (String × String)))
    (pn : String) (task : Task) :
    recordTask m pn task =
      match entryOf pn task with
      | some e => addEntry m e.1 (e.2.1, e.2.2)
      | none => m := by
  rcases htime : task.time with _ | ts
  · simp [recordTask, entryOf, htime]
  · by_cases hts : ts = "" <;> simp [recordTask, entryOf, htime, hts]

lemma foldl_recordTask_eq (petName : String) :
    ∀ (tasks : List Task) (m : List (String × List (String × String))),
    tasks.foldl (fun m2 task => recordTask m2 petName task) m =
      (tasks.filterMap (entryOf petName)).foldl groupAcc m
  | [], m => rfl
  | task :: rest, m => by
    rw [List.foldl_cons, List.filterMap_cons, recordTask_eq_entryOf]
    rcases he : entryOf petName task with _ | e
    · exact foldl_recordTask_eq petName rest m
    · rw [List.foldl_cons]
      exact foldl_recordTask_eq petName rest (groupAcc m e)

lemma buildTimeMap_from :
    ∀ (schedule : List (Pet × List Task)) (m : List (String × List (String × String))),
    schedule.foldl (fun m2 pt => pt.2.foldl (fun m3 task => recordTask m3 pt.1.name task) m2) m =
      (planEntries schedule).foldl groupAcc m
  | [], m => rfl
  | pt :: rest, m => by
    rw [List.foldl_cons, planEntries, List.flatMap_cons, List.foldl_append]
    rw [← planEntries]
    rw [buildTimeMap_from rest _]
    rw [foldl_recordTask_eq pt.1.name pt.2 m]

lemma buildTimeMap_eq (schedule : List (Pet × List Task)) :
    buildTimeMap schedule = (planEntries schedule).foldl groupAcc [] :=
  buildTimeMap_from schedule []

lemma mem_buildTimeMap_char {schedule : List (Pet × List Task)} {t : String}
    {es : List (String × String)} (h : (t, es) ∈ buildTimeMap schedule) :
    es = entriesFor (planEntries schedule) t ∧ es ≠ [] := by
  rw [buildTimeMap_eq] at h
  have hnd : (keysOf ((planEntries schedule).foldl groupAcc [])).Nodup :=
    nodup_keysOf_foldl_groupAcc _ [] (by simp [keysOf])
  have hlook := lookupTime_of_mem hnd h
  have hgd := foldl_groupAcc_lookup (planEntries schedule) [] t
  rw [hlook] at hgd
  simp only [Option.getD_some, lookupTime, Option.getD_none, List.nil_append] at hgd
  refine ⟨hgd, ?_⟩
  intro hnil
  have h2 : lookupTime ((planEntries schedule).foldl groupAcc []) t = none :=
    (foldl_groupAcc_none_iff (planEntries schedule) [] t).mpr ⟨rfl, by rw [← hgd]; exact hnil⟩
  rw [hlook] at h2
  cases h2

lemma nodup_keysOf_buildTimeMap (schedule : List (Pet × List Task)) :
    (keysOf (buildTimeMap schedule)).Nodup := by
  rw [buildTimeMap_eq]
  exact nodup_keysOf_foldl_groupAcc _ [] (by simp [keysOf])

lemma mem_planEntries {schedule : List (Pet × List Task)} {e : String × String × String} :
    e ∈ planEntries schedule ↔
      ∃ pt ∈ schedule, ∃ task ∈ pt.2,
        task.time = some e.1 ∧ e.1 ≠ "" ∧ e.2 = (pt.1.name, task.name) := by
  unfold planEntries
  rw [List.mem_flatMap]
  constructor
  · rintro ⟨pt, hpt, hmem⟩
    rcases List.mem_filterMap.mp hmem with ⟨task, htask, heq⟩
    rcases entryOf_eq_some.mp heq with ⟨h1, h2, h3⟩
    exact ⟨pt, hpt, task, htask, h1, h2, h3⟩
  · rintro ⟨pt, hpt, task, htask, htime, hne, heq⟩
    exact ⟨pt, hpt, List.mem_filterMap.mpr
      ⟨task, htask, entryOf_eq_some.mpr ⟨htime, hne, heq⟩⟩⟩

lemma mem_detectScheduleConflicts {schedule : List (Pet × List Task)} {w : String} :
    w ∈ detectScheduleConflicts schedule ↔
      ∃ t es, (t, es) ∈ buildTimeMap schedule ∧ 1 < es.length ∧ w = mkWarning t es := by
  unfold detectScheduleConflicts
  rw [List.mem_map]
  constructor
  · rintro ⟨⟨t, es⟩, hmem, heq⟩
    rcases List.mem_filter.mp hmem with ⟨hmem2, hlen⟩
    exact ⟨t, es, hmem2, by simpa using hlen, heq.symm⟩
  · rintro ⟨t, es, hmem, hlen, heq⟩
    exact ⟨(t, es), List.mem_filter.mpr ⟨hmem, by simpa using hlen⟩, heq.symm⟩

/-! ### Lemmas about substring occurrence in warning strings -/

lemma occursIn_of_append (a s b : String) : occursIn (a ++ s ++ b) s := by
  refine ⟨a.data, b.data, ?_⟩
  simp [String.data_append]

lemma occursIn_append_right {w s : String} (pre : String) (h : occursIn w s) :
    occursIn (pre ++ w) s := by
  rcases h with ⟨x, y, hxy⟩
  exact ⟨pre.data ++ x, y, by simp [String.data_append, hxy, List.append_assoc]⟩

lemma occursIn_append_left {w s : String} (post : String) (h : occursIn w s) :
    occursIn (w ++ post) s := by
  rcases h with ⟨x, y, hxy⟩
  exact ⟨x, y ++ post.data, by simp [String.data_append, hxy, List.append_assoc]⟩

lemma occursIn_self (s : String) : occursIn s s :=
  ⟨[], [], by simp⟩

lemma occursIn_joinComma {s w : String} : ∀ {l : List String},
    w ∈ l → occursIn w s → occursIn (joinComma l) s := by
  intro l
  induction l with
  | nil => intro h; simp at h
  | cons a rest ih =>
    intro hmem hocc
    rcases List.mem_cons.mp hmem with heq | htl
    · subst heq
      cases rest with
      | nil => exact hocc
      | cons b bs => exact occursIn_append_left _ (occursIn_append_left _ hocc)
    · cases rest with
      | nil => simp at htl
      | cons b bs =>
        rw [show joinComma (a :: b :: bs) = a ++ ", " ++ joinComma (b :: bs) from rfl]
        exact occursIn_append_right _ (ih htl hocc)

lemma mkWarning_occurs_time (time : String) (entries : List (String × String)) :
    occursIn (mkWarning time entries) time := by
  unfold mkWarning
  exact occursIn_append_left _ (occursIn_append_left _
    (occursIn_append_right _ (occursIn_self time)))

lemma mkWarning_occurs_names {time : String} {entries : List (String × String)}
    {pn tn : String} (h : (pn, tn) ∈ entries) :
    occursIn (mkWarning time entries) pn ∧ occursIn (mkWarning time entries) tn := by
  unfold mkWarning
  have hmem : tn ++ " (" ++ pn ++ ")" ∈ entries.map (fun e => e.2 ++ " (" ++ e.1 ++ ")") := by
    exact List.mem_map.mpr ⟨(pn, tn), h, rfl⟩
  constructor
  · refine occursIn_append_right _ (occursIn_joinComma hmem ?_)
    exact occursIn_append_left _ (occursIn_append_right _ (occursIn_self pn))
  · refine occursIn_append_right _ (occursIn_joinComma hmem ?_)
    exact occursIn_append_left _ (occursIn_append_left _
      (occursIn_append_left _ (occursIn_self tn)))

/-! ### Further helper lemmas -/

lemma key_ne_empty_of_mem_buildTimeMap {schedule : List (Pet × List Task)} {t : String}
    {es : List (String × String)} (h : (t, es) ∈ buildTimeMap schedule) : t ≠ "" := by
  rcases mem_buildTimeMap_char h with ⟨hes, hne⟩
  rw [hes] at hne
  unfold entriesFor at hne
  have hf : (planEntries schedule).filter (fun e => e.1 == t) ≠ [] := by
    intro hnil
    rw [hnil] at hne
    exact hne rfl
  obtain ⟨e, he⟩ := List.exists_mem_of_ne_nil _ hf
  rcases List.mem_filter.mp he with ⟨hmem, hbeq⟩
  have het : e.1 = t := by simpa using hbeq
  rcases mem_planEntries.mp hmem with ⟨_, _, _, _, _, hne2, _⟩
  rw [← het]
  exact hne2

lemma entryOf_eq_none_of_not_truthy {pn : String} {task : Task}
    (h : hasTruthyTime task = false) : entryOf pn task = none := by
  rcases htime : task.time with _ | ts
  · simp [entryOf, htime]
  · have : ts = "" := by
      rw [hasTruthyTime, htime] at h
      simpa using h
    simp [entryOf, htime, this]

lemma foldl_recordTask_filter_truthy (pn : String) :
    ∀ (tasks : List Task) (m : List (String × List (String × String))),
    tasks.foldl (fun m2 task => recordTask m2 pn task) m =
      (tasks.filter hasTruthyTime).foldl (fun m2 task => recordTask m2 pn task) m
  | [], _ => rfl
  | task :: rest, m => by
    rw [List.foldl_cons, List.filter_cons]
    cases ht : hasTruthyTime task
    · rw [show recordTask m pn task = m by
        rw [recordTask_eq_entryOf, entryOf_eq_none_of_not_truthy ht]]
      simp only [Bool.false_eq_true, if_neg, ite_false]
      exact foldl_recordTask_filter_truthy pn rest m
    · simp only [if_pos, ite_true, List.foldl_cons]
      exact foldl_recordTask_filter_truthy pn rest (recordTask m pn task)

lemma buildTimeMap_from_filter_truthy :
    ∀ (schedule : List (Pet × List Task)) (m : List (String × List (String × String))),
    schedule.foldl (fun m2 pt => pt.2.foldl (fun m3 task => recordTask m3 pt.1.name task) m2) m =
      (schedule.map (fun pt => (pt.1, pt.2.filter hasTruthyTime))).foldl
        (fun m2 pt => pt.2.foldl (fun m3 task => recordTask m3 pt.1.name task) m2) m
  | [], _ => rfl
  | pt :: rest, m => by
    rw [List.foldl_cons, List.map_cons, List.foldl_cons]
    rw [← foldl_recordTask_filter_truthy pt.1.name pt.2 m]
    exact buildTimeMap_from_filter_truthy rest _

lemma buildTimeMap_filter_truthy (schedule : List (Pet × List Task)) :
    buildTimeMap schedule =
      buildTimeMap (schedule.map (fun pt => (pt.1, pt.2.filter hasTruthyTime))) :=
  buildTimeMap_from_filter_truthy schedule []

lemma sortByTime_top_tail (tasks : List Task) :
    (sortByTime tasks).Pairwise
      (fun a b => parse_time a.time = ⊤ → parse_time b.time = ⊤) := by
  have h : (sortByTime tasks).Pairwise timeLe := List.sorted_insertionSort timeLe tasks
  exact h.imp (fun hab ha => top_le_iff.mp (ha ▸ hab))

lemma mem_prioritizeTasks_subset {budget : Rat} {tasks : List Task} {t : Task}
    (h : t ∈ prioritizeTasks budget tasks) : t ∈ tasks := by
  have h1 : t ∈ tasks.insertionSort priorityLe :=
    (selectWithin_sublist budget _ 0).subset h
  exact (List.perm_insertionSort priorityLe tasks).subset h1

/-! ### Sample data (mirroring the repository's tests) for concrete instances -/

def sampleFeed : Task :=
  { name := "Feed", duration := 10, priority := 5, taskType := "feeding" }

def sampleWalk : Task :=
  { name := "Walk", duration := 15, priority := 3, taskType := "exercise" }

def taskNoTime : Task :=
  { name := "A", duration := 1, priority := 1, taskType := "care", time := none }

def task2599 : Task :=
  { name := "B", duration := 1, priority := 1, taskType := "care", time := some "25:99" }

def zeroDurTask : Task :=
  { name := "Z", duration := 0, priority := 1, taskType := "care" }

def emptyTimeTask : Task :=
  { name := "E", duration := 1, priority := 1, taskType := "care", time := some "" }

def doneTask : Task :=
  { name := "Bath"
    duration := 30
    priority := 2
    taskType := "grooming"
    frequency := Frequency.WEEKLY
    completed := true
    last_completed := some ⟨2026, 10, 1⟩
    time := some "10:00" }

def doneSuccessor : Task :=
  { name := "Bath"
    duration := 30
    priority := 2
    taskType := "grooming"
    frequency := Frequency.WEEKLY
    completed := false
    last_completed := none
    time := some "10:00" }

def monthlyTask : Task :=
  { name := "Vet", duration := 60, priority := 5, taskType := "health"
    frequency := Frequency.MONTHLY }

def buddyFeed : Task :=
  { name := "Feed", duration := 5, priority := 3, taskType := "feeding", time := some "09:00" }

def buddyPlay : Task :=
  { name := "Play", duration := 10, priority := 2, taskType := "play", time := some "09:00" }

def sampleBuddy : Pet :=
  { name := "Buddy", species := "dog", tasks := [buddyFeed, buddyPlay] }

def sampleDate : Date := ⟨2026, 10, 12⟩

def sampleOwner : Owner :=
  { name := "John", dailyTimeAval := 480, pets := [sampleBuddy] }

def otherPetA : Pet :=
  { name := "Milo", species := "cat", tasks := [sampleWalk] }

def otherPetB : Pet :=
  { name := "Milo", species := "cat", tasks := [sampleFeed, sampleWalk] }

def ownerA : Owner :=
  { name := "J", dailyTimeAval := 480, pets := [sampleBuddy, otherPetA] }

def ownerB : Owner :=
  { name := "J", dailyTimeAval := 480, pets := [sampleBuddy, otherPetB] }

def emptyOwner : Owner :=
  { name := "N", dailyTimeAval := 60, pets := [] }

attribute [local semireducible] Rat.add

/-! ### Claim theorems -/

/-- C2: For every task, `isDueToday()` equals the policy table: DAILY is due
iff lastCompleted is unset or differs from today; WEEKLY iff unset or at
least 7 days old (false at exactly 6); MONTHLY iff unset or the calendar
month differs (year not checked); AS_NEEDED always.  The embedding is a
pure function of the task and the date, so the source's lack of side
effects is inherited by construction. -/
theorem isDueToday_matches_policy (t : Task) (today : Date) :
    t.isDueToday today = dueSpecTable t.frequency t.last_completed today := by
  rcases t with ⟨name, dur, pri, ty, freq, comp, last, time⟩
  rcases freq <;> rcases last with _ | d <;>
    simp [Task.isDueToday, dueSpecTable, bne]

/-- C6: `markComplete()` sets completed and lastCompleted on the receiver
and returns a successor iff the frequency is DAILY or WEEKLY; the successor
has completed=false and lastCompleted unset (hence is immediately due
again); MONTHLY and AS_NEEDED return an absent value; `Pet.completeTask`
appends the successor to the pet's task list exactly when one is produced
and returns it. -/
theorem mark_complete_correct (t : Task) (today : Date) :
    (t.mark_complete today).1.completed = true ∧
    (t.mark_complete today).1.last_completed = some today ∧
    ((t.mark_complete today).2.isSome ↔
      (t.frequency = Frequency.DAILY ∨ t.frequency = Frequency.WEEKLY)) ∧
    (∀ s, (t.mark_complete today).2 = some s →
      s.completed = false ∧ s.last_completed = none ∧ s.isDueToday today = true) ∧
    ((t.frequency = Frequency.MONTHLY ∨ t.frequency = Frequency.AS_NEEDED) →
      (t.mark_complete today).2 = none) ∧
    (∀ p : Pet, (p.complete_task t today).1 = (t.mark_complete today).2 ∧
      (p.complete_task t today).2.tasks =
        p.tasks ++ ((t.mark_complete today).2).toList) := by
  rcases hf : t.frequency with _ | _ | _ | _ <;>
    simp [Task.mark_complete, Task.create_next_instance, Pet.complete_task,
      Pet.addTask, Task.isDueToday, hf]

/-- C6 witness: completing the sample DAILY task yields a successor that is
unset and immediately due; completing a MONTHLY task yields no
successor. -/
theorem mark_complete_correct_witness :
    (sampleFeed.completed = false ∧ sampleFeed.last_completed = none ∧
      sampleFeed.isDueToday sampleDate = true) ∧
    (monthlyTask.mark_complete sampleDate).2 = none :=
  ⟨(mark_complete_correct sampleFeed sampleDate).2.2.2.1 sampleFeed (by decide),
   (mark_complete_correct monthlyTask sampleDate).2.2.2.2.1 (Or.inl rfl)⟩

/-- C7: `markComplete()` never changes any receiver field other than
completed and lastCompleted, and the successor, when present, copies every
field except completed and lastCompleted exactly from the receiver. -/
theorem mark_complete_frame (t : Task) (today : Date) :
    ((t.mark_complete today).1.name = t.name ∧
     (t.mark_complete today).1.duration = t.duration ∧
     (t.mark_complete today).1.priority = t.priority ∧
     (t.mark_complete today).1.taskType = t.taskType ∧
     (t.mark_complete today).1.frequency = t.frequency ∧
     (t.mark_complete today).1.time = t.time) ∧
    (∀ s, (t.mark_complete today).2 = some s →
      s.name = t.name ∧ s.duration = t.duration ∧ s.priority = t.priority ∧
      s.taskType = t.taskType ∧ s.frequency = t.frequency ∧ s.time = t.time) := by
  rcases hf : t.frequency with _ | _ | _ | _ <;>
    simp [Task.mark_complete, Task.create_next_instance, hf]

/-- C7 witness: the successor of the completed WEEKLY sample task copies
name, duration, priority, type, frequency and time exactly. -/
theorem mark_complete_frame_witness :
    doneSuccessor.name = doneTask.name ∧ doneSuccessor.duration = doneTask.duration ∧
    doneSuccessor.priority = doneTask.priority ∧
    doneSuccessor.taskType = doneTask.taskType ∧
    doneSuccessor.frequency = doneTask.frequency ∧
    doneSuccessor.time = doneTask.time :=
  (mark_complete_frame doneTask sampleDate).2 doneSuccessor (by decide)

/-- C1 (counterexample): with a negative budget the selection is empty, so
its summed duration 0 exceeds the budget even though every duration is
non-negative — the unconditional budget-bound clause of the claim fails. -/
theorem prioritizeTasks_budget_counterexample :
    (∀ t ∈ [sampleWalk], 0 ≤ t.duration) ∧
    prioritizeTasks (-1) [sampleWalk] = [] ∧
    ¬ sumDurations (prioritizeTasks (-1) [sampleWalk]) ≤ -1 :=
  ⟨by decide, by decide, by decide⟩

/-- C1 (amended): `prioritizeTasks` first stably sorts by priority
descending then duration ascending (the sorted list is a permutation,
pairwise ordered by that key, and every key-ordered subsequence of the
input — in particular every run of key ties, in original input order — is
preserved), then walks the sorted list with a running total, including a
task iff runningTotal + duration ≤ dailyTimeAval (ties in the packing sum
included) and adding its duration on inclusion; the selection is a
subsequence of the sorted list (a skipped task is never revisited), and
the summed duration of the selected tasks never exceeds the budget
whenever the selection is nonempty or the budget is non-negative (with a
negative budget the empty selection's sum 0 exceeds it). -/
theorem prioritizeTasks_correct (tasks : List Task) (budget : Rat) :
    (tasks.insertionSort priorityLe).Perm tasks ∧
    (tasks.insertionSort priorityLe).Pairwise priorityLe ∧
    (∀ a b : Task, priorityLe a b ↔
      (b.priority < a.priority ∨ (a.priority = b.priority ∧ a.duration ≤ b.duration))) ∧
    (∀ c : List Task, c.Pairwise priorityLe → c <+ tasks →
      c <+ tasks.insertionSort priorityLe) ∧
    prioritizeTasks budget tasks = selectWithin budget 0 (tasks.insertionSort priorityLe) ∧
    prioritizeTasks budget tasks <+ tasks.insertionSort priorityLe ∧
    (prioritizeTasks budget tasks ≠ [] →
      sumDurations (prioritizeTasks budget tasks) ≤ budget) ∧
    (0 ≤ budget → sumDurations (prioritizeTasks budget tasks) ≤ budget) := by
  refine ⟨List.perm_insertionSort priorityLe tasks,
    List.sorted_insertionSort priorityLe tasks,
    priorityLe_iff,
    fun c hp hs => List.sublist_insertionSort hp hs,
    rfl,
    selectWithin_sublist budget _ 0,
    ?_, ?_⟩
  · intro hne
    have h := selectWithin_ne_nil_sum_le (b := budget) (tasks.insertionSort priorityLe) 0 hne
    have h2 : prioritizeTasks budget tasks =
        selectWithin budget 0 (tasks.insertionSort priorityLe) := rfl
    rw [h2]
    linarith
  · intro hb
    have h := selectWithin_total_le (b := budget) (tasks.insertionSort priorityLe) 0 hb
    have h2 : prioritizeTasks budget tasks =
        selectWithin budget 0 (tasks.insertionSort priorityLe) := rfl
    rw [h2]
    linarith

/-- C1 witness: on the spec's example (budget 20, Feed 10 min at priority
5, Walk 15 min at priority 3) the selection is nonempty and its summed
duration respects the budget. -/
theorem prioritizeTasks_correct_witness :
    prioritizeTasks 20 [sampleFeed, sampleWalk] ≠ [] ∧
    sumDurations (prioritizeTasks 20 [sampleFeed, sampleWalk]) ≤ 20 ∧
    sumDurations (prioritizeTasks 20 [sampleFeed, sampleWalk]) ≤ 20 :=
  ⟨by decide,
   (prioritizeTasks_correct [sampleFeed, sampleWalk] 20).2.2.2.2.2.2.1 (by decide),
   (prioritizeTasks_correct [sampleFeed, sampleWalk] 20).2.2.2.2.2.2.2 (by norm_num)⟩

/-- C3 (counterexample): `"25:99"` is not mapped to the maximal sentinel —
it parses to 25*60+99 = 1599 — so a task with time `"25:99"` sorts
*before* a task with unset time, and the original relative order among
malformed/absent entries is not preserved. -/
theorem sortByTime_sentinel_counterexample :
    parse_time (some "25:99") = ((1599 : Int) : WithTop Int) ∧
    parse_time (some "25:99") ≠ parse_time none ∧
    sortByTime [taskNoTime, task2599] = [task2599, taskNoTime] ∧
    [task2599, taskNoTime] ≠ [taskNoTime, task2599] :=
  ⟨by decide, by decide, by decide, by decide⟩

/-- C3 (amended): `sortByTime` stably sorts by the parsed "HH:MM" key
(minutes since midnight): the result is a permutation, pairwise ordered by
the key, and every key-ordered subsequence — in particular every run of
equal keys, in original input order — is preserved; unset, empty and
unparseable time strings map to the maximal sentinel and are therefore
placed after all other tasks (with original relative order preserved among
them), and no exception is raised; however a string such as "25:99" that
parses as two integers maps to its numeric value (1599), which places it
after all validly timed tasks but *before* the sentinel entries. -/
theorem sortByTime_correct (tasks : List Task) :
    (sortByTime tasks).Perm tasks ∧
    (sortByTime tasks).Pairwise timeLe ∧
    (∀ a b : Task, timeLe a b ↔ parse_time a.time ≤ parse_time b.time) ∧
    (∀ c : List Task, c.Pairwise timeLe → c <+ tasks → c <+ sortByTime tasks) ∧
    (sortByTime tasks).Pairwise
      (fun a b => parse_time a.time = ⊤ → parse_time b.time = ⊤) ∧
    parse_time none = ⊤ ∧
    parse_time (some "") = ⊤ ∧
    parse_time (some "not a time") = ⊤ ∧
    parse_time (some "09:30") = ((570 : Int) : WithTop Int) ∧
    parse_time (some "25:99") = ((1599 : Int) : WithTop Int) :=
  ⟨List.perm_insertionSort timeLe tasks,
   List.sorted_insertionSort timeLe tasks,
   fun _ _ => Iff.rfl,
   fun _ hp hs => List.sublist_insertionSort hp hs,
   sortByTime_top_tail tasks,
   rfl, by decide, by decide, by decide, by decide⟩

/-- C3 witness: the key-tied pair of unset-time tasks keeps its input
order through the sort. -/
theorem sortByTime_correct_witness :
    [task2599, taskNoTime] <+ sortByTime [taskNoTime, task2599, taskNoTime] :=
  (sortByTime_correct [taskNoTime, task2599, taskNoTime]).2.2.2.1
    [task2599, taskNoTime] (by decide) (by decide)

/-- C5: `genDailyPlan` returns exactly the pre-prioritization
`(pet, dueTasks)` pairs of `Owner.getTasksDueToday` (the post-selection
plan is stored separately in the schedule): pets in addition order with
their due tasks in per-pet order, pets with an empty due list omitted; on
an owner with zero pets the returned pair list is empty. -/
theorem genDailyPlan_returns_due_pairs (owner : Owner) (today : Date) :
    (genDailyPlan owner today).returned = owner.getTasksDueToday today ∧
    owner.getTasksDueToday today =
      (owner.pets.map (fun p => (p, p.getTasksDueToday today))).filter
        (fun pd => !pd.2.isEmpty) ∧
    (genDailyPlan owner today).schedule =
      (owner.getTasksDueToday today).map
        (fun pt => (pt.1, prioritizeTasks owner.dailyTimeAval pt.2)) ∧
    (∀ p ds, (p, ds) ∈ (genDailyPlan owner today).returned →
      p ∈ owner.pets ∧ ds = p.getTasksDueToday today ∧ ds ≠ []) ∧
    (owner.pets = [] → (genDailyPlan owner today).returned = []) := by
  refine ⟨rfl, tasksDueByPet_eq_filter today owner.pets, rfl,
    fun p ds h => mem_tasksDueByPet h, ?_⟩
  intro hpets
  rw [genDailyPlan_returned, Owner.getTasksDueToday, hpets]
  rfl

/-- C5 witness: on an owner with zero pets the returned pair list is
empty. -/
theorem genDailyPlan_returns_due_pairs_witness :
    (genDailyPlan emptyOwner sampleDate).returned = [] :=
  (genDailyPlan_returns_due_pairs emptyOwner sampleDate).2.2.2.2 rfl

/-- C8 (counterexample): with a zero budget and a zero-duration task
(durations are non-negative per the data model) the packing test
0 + 0 ≤ 0 succeeds, so the selection is *not* empty. -/
theorem prioritizeTasks_zero_budget_counterexample :
    zeroDurTask.duration = 0 ∧
    prioritizeTasks 0 [zeroDurTask] = [zeroDurTask] ∧
    prioritizeTasks 0 [zeroDurTask] ≠ [] :=
  ⟨by decide, by decide, by decide⟩

/-- C8 (amended): `prioritizeTasks` raises no error on zero or negative
budgets (it is a total function).  With non-negative durations, a strictly
negative budget yields an empty selection, and a zero-or-negative budget
selects only zero-duration tasks; in particular with strictly positive
durations the selection is empty.  At budget exactly zero a zero-duration
task is still selected. -/
theorem prioritizeTasks_nonpositive_budget (budget : Rat) (tasks : List Task) :
    (budget < 0 → (∀ t ∈ tasks, 0 ≤ t.duration) → prioritizeTasks budget tasks = []) ∧
    (budget ≤ 0 → (∀ t ∈ tasks, 0 ≤ t.duration) →
      ∀ t ∈ prioritizeTasks budget tasks, t.duration = 0) ∧
    (budget ≤ 0 → (∀ t ∈ tasks, 0 < t.duration) → prioritizeTasks budget tasks = []) := by
  have hsortmem : ∀ t ∈ tasks.insertionSort priorityLe, t ∈ tasks :=
    fun t ht => (List.perm_insertionSort priorityLe tasks).subset ht
  refine ⟨?_, ?_, ?_⟩
  · intro hb hdur
    exact selectWithin_neg_empty hb _ 0 le_rfl
      (fun t ht => hdur t (hsortmem t ht))
  · intro hb hdur
    exact selectWithin_zero_dur hb _ 0 le_rfl (fun t ht => hdur t (hsortmem t ht))
  · intro hb hpos
    by_contra hne
    obtain ⟨t, ht⟩ := List.exists_mem_of_ne_nil _ hne
    have h0 : t.duration = 0 :=
      selectWithin_zero_dur hb _ 0 le_rfl
        (fun u hu => le_of_lt (hpos u (hsortmem u hu))) t ht
    have hmem : t ∈ tasks := mem_prioritizeTasks_subset ht
    exact absurd (h0 ▸ hpos t hmem) (lt_irrefl 0)

/-- C8 witness: a negative budget yields an empty selection on the sample
task list; a zero budget over positive-duration tasks does too. -/
theorem prioritizeTasks_nonpositive_budget_witness :
    prioritizeTasks (-1) [sampleFeed, sampleWalk] = [] ∧
    prioritizeTasks 0 [sampleFeed, sampleWalk] = [] :=
  ⟨(prioritizeTasks_nonpositive_budget (-1) [sampleFeed, sampleWalk]).1
      (by norm_num) (by decide),
   (prioritizeTasks_nonpositive_budget 0 [sampleFeed, sampleWalk]).2.2
      le_rfl (by decide)⟩

/-- C9: each pet's selection in `genDailyPlan` is computed by
`prioritizeTasks` against the owner's full `dailyTimeAval` independently —
the budget is not pooled or decremented across pets — so a pet's selected
list is a function only of its own due tasks and the budget: two runs
differing only in other pets' tasks select the same list for this pet. -/
theorem prioritize_per_pet_independent
    (o1 o2 : Owner) (today : Date) (p1 p2 : Pet) (s1 s2 : List Task)
    (hbudget : o1.dailyTimeAval = o2.dailyTimeAval)
    (hdue : p1.getTasksDueToday today = p2.getTasksDueToday today)
    (h1 : (p1, s1) ∈ (genDailyPlan o1 today).schedule)
    (h2 : (p2, s2) ∈ (genDailyPlan o2 today).schedule) :
    s1 = s2 ∧
    s1 = prioritizeTasks o1.dailyTimeAval (p1.getTasksDueToday today) := by
  have c1 := mem_genDailyPlan_schedule h1
  have c2 := mem_genDailyPlan_schedule h2
  refine ⟨?_, c1.2⟩
  rw [c1.2, c2.2, hbudget, hdue]

/-- C9 witness: two owners sharing the budget and the pet Buddy but
differing in the other pet's tasks select the same list for Buddy. -/
theorem prioritize_per_pet_independent_witness :
    [buddyFeed, buddyPlay] =
      prioritizeTasks (480 : Rat) (sampleBuddy.getTasksDueToday sampleDate) :=
  (prioritize_per_pet_independent ownerA ownerB sampleDate sampleBuddy sampleBuddy
    [buddyFeed, buddyPlay] [buddyFeed, buddyPlay] rfl rfl
    (by decide) (by decide)).2

/-- C4: after `genDailyPlan`, conflict detection runs over the cached
post-prioritization schedule only; the time map's keys are distinct, and
each key's entry list is exactly the `(petName, taskName)` pairs, in
traversal order, of the *selected* tasks (across any pets) whose set,
nonempty time equals that key — so tasks with unset times and tasks
dropped for exceeding the budget are never considered.  A warning is
emitted exactly for the keys with two or more entries — one warning per
such time — and the warning string contains the time, every involved pet
name and every involved task name. -/
theorem detectScheduleConflicts_correct (owner : Owner) (today : Date) :
    (genDailyPlan owner today).conflicts =
      detectScheduleConflicts (genDailyPlan owner today).schedule ∧
    (keysOf (buildTimeMap (genDailyPlan owner today).schedule)).Nodup ∧
    (∀ t es, (t, es) ∈ buildTimeMap (genDailyPlan owner today).schedule →
      es = entriesFor (planEntries (genDailyPlan owner today).schedule) t ∧
      es ≠ [] ∧ t ≠ "") ∧
    (∀ e, e ∈ planEntries (genDailyPlan owner today).schedule ↔
      ∃ pt ∈ (genDailyPlan owner today).schedule, ∃ task ∈ pt.2,
        task.time = some e.1 ∧ e.1 ≠ "" ∧ e.2 = (pt.1.name, task.name)) ∧
    (∀ w, w ∈ (genDailyPlan owner today).conflicts ↔
      ∃ t es, (t, es) ∈ buildTimeMap (genDailyPlan owner today).schedule ∧
        1 < es.length ∧ w = mkWarning t es) ∧
    (∀ t es, (t, es) ∈ buildTimeMap (genDailyPlan owner today).schedule →
      occursIn (mkWarning t es) t ∧
      ∀ pn tn, (pn, tn) ∈ es →
        occursIn (mkWarning t es) pn ∧ occursIn (mkWarning t es) tn) := by
  refine ⟨rfl, nodup_keysOf_buildTimeMap _, ?_, fun e => mem_planEntries, ?_, ?_⟩
  · intro t es h
    rcases mem_buildTimeMap_char h with ⟨h1, h2⟩
    exact ⟨h1, h2, key_ne_empty_of_mem_buildTimeMap h⟩
  · intro w
    rw [genDailyPlan_conflicts]
    exact mem_detectScheduleConflicts
  · intro t es _
    exact ⟨mkWarning_occurs_time t es, fun pn tn hmem => mkWarning_occurs_names hmem⟩

/-- C4 witness: on the sample owner, Buddy's two selected 09:00 tasks form
one time-map entry, and its warning string contains the time, the pet name
and both task names. -/
theorem detectScheduleConflicts_correct_witness :
    occursIn (mkWarning "09:00" [("Buddy", "Feed"), ("Buddy", "Play")]) "09:00" ∧
    occursIn (mkWarning "09:00" [("Buddy", "Feed"), ("Buddy", "Play")]) "Buddy" ∧
    occursIn (mkWarning "09:00" [("Buddy", "Feed"), ("Buddy", "Play")]) "Feed" ∧
    occursIn (mkWarning "09:00" [("Buddy", "Feed"), ("Buddy", "Play")]) "Play" := by
  have h := (detectScheduleConflicts_correct sampleOwner sampleDate).2.2.2.2.2
    "09:00" [("Buddy", "Feed"), ("Buddy", "Play")] (by decide)
  exact ⟨h.1, (h.2 "Buddy" "Feed" (by decide)).1,
    (h.2 "Buddy" "Feed" (by decide)).2, (h.2 "Buddy" "Play" (by decide)).2⟩

/-- C10: an empty-string scheduledTime is treated exactly like an unset
one throughout the scheduler: its `sortByTime` key is the same maximal
sentinel (so such tasks sort after every finitely-keyed task), and
conflict detection's time map — hence the emitted warnings — is unchanged
when all tasks without a set, nonempty time are removed, so such a task
never contributes to a conflict warning. -/
theorem empty_time_like_unset (tasks : List Task) (schedule : List (Pet × List Task)) :
    parse_time (some "") = parse_time none ∧
    parse_time (some "") = ⊤ ∧
    (sortByTime tasks).Pairwise
      (fun a b => parse_time a.time = ⊤ → parse_time b.time = ⊤) ∧
    buildTimeMap schedule =
      buildTimeMap (schedule.map (fun pt => (pt.1, pt.2.filter hasTruthyTime))) ∧
    detectScheduleConflicts schedule =
      detectScheduleConflicts (schedule.map (fun pt => (pt.1, pt.2.filter hasTruthyTime))) ∧
    (∀ t : Task, t.time = some "" → hasTruthyTime t = false) := by
  refine ⟨rfl, rfl, sortByTime_top_tail tasks, buildTimeMap_filter_truthy schedule, ?_, ?_⟩
  · unfold detectScheduleConflicts
    rw [← buildTimeMap_filter_truthy]
  · intro t ht
    rw [hasTruthyTime, ht]
    simp

/-- C10 witness: the sample task with time `""` has the sentinel key and
is invisible to conflict detection. -/
theorem empty_time_like_unset_witness :
    parse_time (some "") = parse_time none ∧ hasTruthyTime emptyTimeTask = false :=
  ⟨(empty_time_like_unset [] []).1,
   (empty_time_like_unset [] []).2.2.2.2.2 emptyTimeTask (by decide)⟩

end PawPal
